import Mathlib

/-!
Shallow embedding of the permutation-testing core of the `hyppo` repository:
`src/hyppo/discrim/discrim_one_samp.py` (one-sample discriminability test:
permutation engine, p-value calculator, `_perm_stat`) and
`src/hyppo/time_series/mgcx.py` (MGCX time-series test: lag search composed
into the statistic handed to the permutation engine).

Scalar statistics are modelled as exact rationals (`ℚ`); samples as lists.
The external `numpy` global random generator is modelled by an explicit state
threaded through the draws, and `np.random.permutation` by an abstract `Draw`
procedure that returns a rearrangement of its argument.
-/

namespace Hyppo

/-- State of the process-global `numpy.random` generator.  `numpy` is an
external collaborator: only the fact that the global state is read and
mutated by each draw is modelled, not the Mersenne-Twister internals. -/
abbrev RngState : Type := Nat

/-- Abstract model of `np.random.permutation`: from the global generator state
and a sequence, produce the permuted sequence together with the mutated
generator state. -/
def Draw (α : Type) : Type := RngState → List α → List α × RngState

/-- A `Draw` is lawful when the sequence it returns is a genuine rearrangement
(a permutation of the row labels) of its input, which is the defining property
of `np.random.permutation`. -/
def LawfulDraw {α : Type} (draw : Draw α) : Prop :=
  ∀ (s : RngState) (l : List α), ((draw s l).1).Perm l

/-- `DiscrimOneSample._perm_stat` (src/hyppo/discrim/discrim_one_samp.py,
lines 146-165): `permy = np.random.permutation(self.y)` followed by
`perm_stat = self._statistic(self.x, permy)`.  The process-global generator
state is made explicit; the `index` parameter is kept exactly as in the
source, where it is bound but never read.  Returns the permuted statistic
and the mutated global state. -/
def perm_stat {α β : Type} (statistic : α → List β → ℚ) (draw : Draw β)
    (x : α) (y : List β) (state : RngState) (index : Nat) : ℚ × RngState :=
  let permy := (draw state y).1
  (statistic x permy, (draw state y).2)

/-- The permutation loop of `DiscrimOneSample.test`
(src/hyppo/discrim/discrim_one_samp.py, lines 129-132):
`mapwrapper(self._perm_stat, range(reps))`, evaluated sequentially with the
global generator state threaded from one draw to the next.  `start` is the
first index handed to `_perm_stat` and `k` the number of remaining draws. -/
def run_perms {α β : Type} (statistic : α → List β → ℚ) (draw : Draw β)
    (x : α) (y : List β) : Nat → Nat → RngState → List ℚ × RngState
  | _start, 0, s => ([], s)
  | start, k + 1, s =>
    let r := perm_stat statistic draw x y s start
    let rest := run_perms statistic draw x y (start + 1) k r.2
    (r.1 :: rest.1, rest.2)

/-- `null_dist` of `DiscrimOneSample.test` (line 131): the list of `reps`
permuted statistics, indices `0 .. reps-1`. -/
def null_dist {α β : Type} (statistic : α → List β → ℚ) (draw : Draw β)
    (x : α) (y : List β) (reps : Nat) (s : RngState) : List ℚ :=
  (run_perms statistic draw x y 0 reps s).1

/-- The global generator state after `i` draws on `y`. -/
def state_after {β : Type} (draw : Draw β) (y : List β) : Nat → RngState → RngState
  | 0, s => s
  | i + 1, s => state_after draw y i (draw s y).2

/-- The permuted copy of `y` drawn at position `i` of the sequential
permutation loop started in global state `s`. -/
def permy_at {β : Type} (draw : Draw β) (y : List β) (s : RngState) (i : Nat) : List β :=
  (draw (state_after draw y i s) y).1

/-- The p-value computation of `DiscrimOneSample.test`
(src/hyppo/discrim/discrim_one_samp.py, lines 134-140):
`pvalue = ((null_dist >= stat).sum()) / reps`, then the zero correction
`if pvalue == 0: pvalue = 1 / reps`. -/
def compute_pvalue (nd : List ℚ) (stat : ℚ) (reps : Nat) : ℚ :=
  if ((nd.countP (fun v => stat ≤ v) : ℚ) / reps) = 0 then 1 / reps
  else (nd.countP (fun v => stat ≤ v) : ℚ) / reps

/-- Shape of the value returned by a `test()` call: `DiscrimOneSample.test`
returns the 2-tuple `(stat, pvalue)` (line 144), `MGCX.test` returns the
3-tuple `(stat, pvalue, mgcx_dict)` (line 180). -/
inductive TestReturn where
  | pair (stat pvalue : ℚ)
  | triple (stat pvalue : ℚ) (opt_lag : Nat) (opt_scale : Nat × Nat)
deriving DecidableEq

/-- Whether a `test()` return value carries the auxiliary info mapping. -/
def TestReturn.hasInfo : TestReturn → Bool
  | .pair _ _ => false
  | .triple _ _ _ _ => true

/-- `DiscrimOneSample.test` (src/hyppo/discrim/discrim_one_samp.py, lines
76-144): observed statistic on `(x, y)`, permutation loop, p-value with the
zero correction; returns the pair `(stat, pvalue)` and no info mapping. -/
def discrim_test {α β : Type} (statistic : α → List β → ℚ) (draw : Draw β)
    (x : α) (y : List β) (reps : Nat) (s : RngState) : TestReturn :=
  let stat := statistic x y
  let nd := null_dist statistic draw x y reps s
  .pair stat (compute_pvalue nd stat reps)

section Helpers

/-- One step of `run_perms` unfolded: the first drawn statistic is evaluated
at the permuted `y` and the rest of the loop continues in the mutated state. -/
theorem run_perms_succ {α β : Type} (statistic : α → List β → ℚ) (draw : Draw β)
    (x : α) (y : List β) (start k : Nat) (s : RngState) :
    run_perms statistic draw x y start (k + 1) s =
      ((statistic x (draw s y).1) ::
        (run_perms statistic draw x y (start + 1) k (draw s y).2).1,
       (run_perms statistic draw x y (start + 1) k (draw s y).2).2) := rfl

/-- The list of permuted statistics produced by the sequential loop is the
map of `statistic x` over the successively drawn permuted copies of `y`. -/
theorem run_perms_fst {α β : Type} (statistic : α → List β → ℚ) (draw : Draw β)
    (x : α) (y : List β) :
    ∀ (k start : Nat) (s : RngState),
      (run_perms statistic draw x y start k s).1 =
        (List.range k).map (fun j => statistic x (permy_at draw y s j)) := by
  intro k
  induction k with
  | zero => intro start s; rfl
  | succ k ih =>
    intro start s
    rw [run_perms_succ, List.range_succ_eq_map]
    simp only [List.map_cons, List.map_map, List.cons.injEq]
    refine ⟨rfl, ?_⟩
    rw [ih (start + 1) (draw s y).2]
    apply List.map_congr_left
    intro j _
    rfl

/-- `null_dist` as a map over draw positions. -/
theorem null_dist_eq_map {α β : Type} (statistic : α → List β → ℚ) (draw : Draw β)
    (x : α) (y : List β) (reps : Nat) (s : RngState) :
    null_dist statistic draw x y reps s =
      (List.range reps).map (fun j => statistic x (permy_at draw y s j)) :=
  run_perms_fst statistic draw x y reps 0 s

end Helpers

/-- C10: `DiscrimOneSample._perm_stat` never uses its `index` parameter: its
result is a function only of `x`, `y` and the current global random state, so
two calls with any two indices from identical generator states yield
identical results. -/
theorem perm_stat_ignores_index {α β : Type} (statistic : α → List β → ℚ)
    (draw : Draw β) (x : α) (y : List β) (state : RngState) (i j : Nat) :
    perm_stat statistic draw x y state i = perm_stat statistic draw x y state j := rfl

/-- C2: for a null distribution `d` of length `reps` with `reps > 0`, the
returned p-value is `count(d >= stat) / reps`, except that a raw count of `0`
is reported as `1 / reps` instead of `0`. -/
theorem pvalue_count_formula (d : List ℚ) (stat : ℚ) (reps : Nat)
    (hreps : 0 < reps) (hlen : d.length = reps) :
    (d.countP (fun v => stat ≤ v) = 0 → compute_pvalue d stat reps = 1 / reps) ∧
    (d.countP (fun v => stat ≤ v) ≠ 0 →
      compute_pvalue d stat reps = (d.countP (fun v => stat ≤ v) : ℚ) / reps) := by
  have hq : ((reps : ℚ)) ≠ 0 := by
    exact_mod_cast Nat.pos_iff_ne_zero.mp hreps
  constructor
  · intro h0
    simp [compute_pvalue, h0]
  · intro hne
    have hnz : ((d.countP (fun v => stat ≤ v) : ℚ)) ≠ 0 := by
      exact_mod_cast hne
    have : ((d.countP (fun v => stat ≤ v) : ℚ)) / reps ≠ 0 :=
      div_ne_zero hnz hq
    simp [compute_pvalue, this]

/-- C2 witness: at `d = [1, 3]`, `stat = 2`, `reps = 2` the hypotheses hold
and the p-value equals the count divided by `reps`. -/
theorem pvalue_count_formula_witness :
    0 < 2 ∧ ([(1 : ℚ), 3]).length = 2 ∧
      compute_pvalue [(1 : ℚ), 3] 2 2 =
        (([(1 : ℚ), 3]).countP (fun v => (2 : ℚ) ≤ v) : ℚ) / 2 :=
  ⟨by decide, by decide,
    (pvalue_count_formula [(1 : ℚ), 3] 2 2 (by decide) (by decide)).2 (by decide)⟩

/-- C3: whenever `test()` returns, the p-value lies in `[1/reps, 1]`; in
particular it is never exactly `0`, whatever the counts in the null
distribution. -/
theorem pvalue_bounds (d : List ℚ) (stat : ℚ) (reps : Nat)
    (hreps : 0 < reps) (hlen : d.length = reps) :
    1 / (reps : ℚ) ≤ compute_pvalue d stat reps ∧
      compute_pvalue d stat reps ≤ 1 ∧ compute_pvalue d stat reps ≠ 0 := by
  have hq : (0 : ℚ) < (reps : ℚ) := by exact_mod_cast hreps
  have hone : (1 : ℚ) ≤ (reps : ℚ) := by exact_mod_cast hreps
  have hcnt : d.countP (fun v => stat ≤ v) ≤ reps := by
    rw [← hlen]; exact List.countP_le_length _
  have hcntq : ((d.countP (fun v => stat ≤ v) : ℚ)) ≤ (reps : ℚ) := by
    exact_mod_cast hcnt
  unfold compute_pvalue
  by_cases h : ((d.countP (fun v => stat ≤ v) : ℚ)) / (reps : ℚ) = 0
  · rw [if_pos h]
    refine ⟨le_refl _, ?_, ?_⟩
    · rw [div_le_one hq]; exact hone
    · exact one_div_ne_zero (ne_of_gt hq)
  · rw [if_neg h]
    have hnz : ((d.countP (fun v => stat ≤ v) : ℚ)) ≠ 0 := by
      intro hc; exact h (by rw [hc, zero_div])
    have hposn : (0 : ℚ) < ((d.countP (fun v => stat ≤ v) : ℚ)) := by
      have : 0 < d.countP (fun v => stat ≤ v) := by
        by_contra hc
        exact hnz (by simp [Nat.eq_zero_of_not_pos hc])
      exact_mod_cast this
    have honec : (1 : ℚ) ≤ ((d.countP (fun v => stat ≤ v) : ℚ)) := by
      have : 1 ≤ d.countP (fun v => stat ≤ v) := by
        by_contra hc
        have : d.countP (fun v => stat ≤ v) = 0 := by omega
        exact hnz (by exact_mod_cast this)
      exact_mod_cast this
    refine ⟨?_, ?_, h⟩
    · gcongr
    · rw [div_le_one hq]; exact hcntq

/-- C3 witness: at `d = [1, 3]`, `stat = 5`, `reps = 2` the hypotheses hold
and the bounds apply (here the raw count is `0`, so the floor `1/2` is hit). -/
theorem pvalue_bounds_witness :
    0 < 2 ∧ ([(1 : ℚ), 3]).length = 2 ∧
      (1 / ((2 : Nat) : ℚ) ≤ compute_pvalue [(1 : ℚ), 3] 5 2 ∧
        compute_pvalue [(1 : ℚ), 3] 5 2 ≤ 1 ∧ compute_pvalue [(1 : ℚ), 3] 5 2 ≠ 0) :=
  ⟨by decide, by decide, pvalue_bounds [(1 : ℚ), 3] 5 2 (by decide) (by decide)⟩

section ConcreteInstances

/-- A lawful concrete drawing procedure for witnesses: rotate the sequence by
the current generator state and advance the state. -/
def rotateDraw : Draw ℚ := fun s l => (l.rotate s, s + 1)

/-- `rotateDraw` really returns rearrangements of its input. -/
theorem rotateDraw_lawful : LawfulDraw rotateDraw := fun s l => List.rotate_perm l s

/-- A concrete statistic kernel for witnesses: the head of the second sample. -/
def headStat : List ℚ → List ℚ → ℚ := fun _ y => y.headD 0

end ConcreteInstances

/-- C7: during the permutation loop only the second input is ever permuted:
the `i`-th entry of the null distribution is `statistic_fn(x, permuted_y)`
where `permuted_y` is the rearrangement of the row labels of `y` drawn at
position `i`, and `x` itself is handed to every permuted evaluation
unchanged. -/
theorem perm_loop_permutes_only_y {α β : Type} (statistic : α → List β → ℚ)
    (draw : Draw β) (x : α) (y : List β) (reps : Nat) (s : RngState)
    (hdraw : LawfulDraw draw) (i : Nat) (hi : i < reps) :
    (null_dist statistic draw x y reps s)[i]? =
      some (statistic x (permy_at draw y s i)) ∧
    (permy_at draw y s i).Perm y := by
  constructor
  · rw [null_dist_eq_map, List.getElem?_map, List.getElem?_range hi]
    rfl
  · exact hdraw _ _

/-- C7 witness: a concrete run with the rotation draw at index `1` of `2`. -/
theorem perm_loop_permutes_only_y_witness :
    LawfulDraw rotateDraw ∧ 1 < 2 ∧
      ((null_dist headStat rotateDraw ([] : List ℚ) [(1 : ℚ), 2] 2 0)[1]? =
          some (headStat ([] : List ℚ) (permy_at rotateDraw [(1 : ℚ), 2] 0 1)) ∧
        (permy_at rotateDraw [(1 : ℚ), 2] 0 1).Perm [(1 : ℚ), 2]) :=
  ⟨rotateDraw_lawful, by decide,
    perm_loop_permutes_only_y headStat rotateDraw ([] : List ℚ) [(1 : ℚ), 2] 2 0
      rotateDraw_lawful 1 (by decide)⟩

/-- C6: the permuted statistic of `_perm_stat` is not a self-contained pure
function of `(x, y, index)`: with the same index `5` and identical inputs,
two calls made from different global generator states return different
permuted statistics, and the sequential loop really does hand the state
mutated by draw `0` to draw `1` (`state_after ... 1 0 = 1`), so the draws
share a pseudo-random generator state mutated across calls. -/
theorem perm_stat_depends_on_shared_state :
    LawfulDraw rotateDraw ∧
    state_after rotateDraw [(1 : ℚ), 2] 1 0 = 1 ∧
    (perm_stat headStat rotateDraw ([] : List ℚ) [(1 : ℚ), 2] 0 5).1 ≠
      (perm_stat headStat rotateDraw ([] : List ℚ) [(1 : ℚ), 2] 1 5).1 := by
  refine ⟨rotateDraw_lawful, rfl, ?_⟩
  decide

section ExceptionModel

/-- The permutation loop with a fallible statistic kernel: Python exceptions
are modelled by `Except ε`.  The loop body is exactly `_perm_stat` (permute
`y`, evaluate the statistic); a raised exception stops the loop. -/
def run_perms_exc {α β ε : Type} (statE : α → List β → Except ε ℚ) (draw : Draw β)
    (x : α) (y : List β) : Nat → RngState → Except ε (List ℚ × RngState)
  | 0, s => .ok ([], s)
  | k + 1, s =>
    match statE x (draw s y).1 with
    | .error e => .error e
    | .ok v =>
      match run_perms_exc statE draw x y k (draw s y).2 with
      | .error e => .error e
      | .ok rest => .ok (v :: rest.1, rest.2)

/-- `DiscrimOneSample.test` with a fallible statistic kernel: the source body
(src/hyppo/discrim/discrim_one_samp.py, lines 113-144) contains no exception
handler, so a failure of `self._statistic` on the observed data or inside any
permutation draw propagates out of `test()` (the `MapWrapper` of scipy is an
external collaborator; per §4.3 of the spec it preserves exception
visibility). -/
def discrim_test_exc {α β ε : Type} (statE : α → List β → Except ε ℚ) (draw : Draw β)
    (x : α) (y : List β) (reps : Nat) (s : RngState) : Except ε (ℚ × ℚ) :=
  match statE x y with
  | .error e => .error e
  | .ok stat =>
    match run_perms_exc statE draw x y reps s with
    | .error e => .error e
    | .ok nd => .ok (stat, compute_pvalue nd.1 stat reps)

/-- When the fallible permutation loop succeeds, every one of its `k` draws
evaluated the statistic successfully and the null distribution is complete. -/
theorem run_perms_exc_ok {α β ε : Type} (statE : α → List β → Except ε ℚ)
    (draw : Draw β) (x : α) (y : List β) :
    ∀ (k : Nat) (s : RngState) (l : List ℚ × RngState),
      run_perms_exc statE draw x y k s = .ok l →
      l.1.length = k ∧
        ∀ i, i < k → ∃ v, statE x (permy_at draw y s i) = Except.ok v := by
  intro k
  induction k with
  | zero =>
    intro s l hl
    refine ⟨?_, ?_⟩
    · cases hl; rfl
    · intro i hi; omega
  | succ k ih =>
    intro s l hl
    unfold run_perms_exc at hl
    cases hstat : statE x (draw s y).1 with
    | error e => rw [hstat] at hl; cases hl
    | ok v =>
      rw [hstat] at hl
      cases hrest : run_perms_exc statE draw x y k (draw s y).2 with
      | error e => rw [hrest] at hl; cases hl
      | ok rest =>
        rw [hrest] at hl
        cases hl
        have hih := ih (draw s y).2 rest hrest
        refine ⟨by simp [hih.1], ?_⟩
        intro i hi
        cases i with
        | zero => exact ⟨v, hstat⟩
        | succ i => exact hih.2 i (by omega)

end ExceptionModel

/-- C8: if the statistic function fails on the observed data the whole
`test()` call fails with that error, and whenever `test()` does return a
result, the observed statistic and every one of the `reps` permutation
draws evaluated successfully and the p-value was computed from the complete
null distribution of length `reps` — no failed draw is dropped and no
partial p-value is produced. -/
theorem test_propagates_statistic_failures {α β ε : Type}
    (statE : α → List β → Except ε ℚ) (draw : Draw β) (x : α) (y : List β)
    (reps : Nat) (s : RngState) :
    (∀ e, statE x y = .error e → discrim_test_exc statE draw x y reps s = .error e) ∧
    (∀ r, discrim_test_exc statE draw x y reps s = .ok r →
      statE x y = .ok r.1 ∧
        ∃ nd, run_perms_exc statE draw x y reps s = .ok nd ∧
          nd.1.length = reps ∧
          r.2 = compute_pvalue nd.1 r.1 reps ∧
          ∀ i, i < reps → ∃ v, statE x (permy_at draw y s i) = Except.ok v) := by
  constructor
  · intro e he
    unfold discrim_test_exc
    rw [he]
  · intro r hr
    unfold discrim_test_exc at hr
    cases hstat : statE x y with
    | error e => rw [hstat] at hr; cases hr
    | ok stat =>
      rw [hstat] at hr
      cases hnd : run_perms_exc statE draw x y reps s with
      | error e => rw [hnd] at hr; cases hr
      | ok nd =>
        rw [hnd] at hr
        cases hr
        have hok := run_perms_exc_ok statE draw x y reps s nd hnd
        exact ⟨rfl, nd, rfl, hok.1, rfl, hok.2⟩

/-- C8 witness: a statistic kernel that always raises error `3` makes the
whole `test()` call return that error. -/
theorem test_propagates_statistic_failures_witness :
    ((fun (_ : List ℚ) (_ : List ℚ) => (Except.error 3 : Except Nat ℚ))
        ([] : List ℚ) [(1 : ℚ)] = Except.error 3) ∧
      discrim_test_exc (fun _ _ => (Except.error 3 : Except Nat ℚ))
        rotateDraw ([] : List ℚ) [(1 : ℚ)] 2 0 = Except.error 3 :=
  ⟨rfl,
    (test_propagates_statistic_failures (fun _ _ => (Except.error 3 : Except Nat ℚ))
        rotateDraw ([] : List ℚ) [(1 : ℚ)] 2 0).1 3 rfl⟩

section LagSearch

/-- Modelled from the spec: the per-lag aligned statistic inside
`compute_stat` (`hyppo/time_series/_utils.py`, which is not under `src/`).
Per §4.2: `aligned_stat_j = statistic_fn(x[j:n], y[0:(n-j)])`, weighted by
`(n-j)/n`. -/
def aligned_stat {α : Type} (kernel : List α → List α → ℚ) (x y : List α)
    (j : Nat) : ℚ :=
  (((x.length : ℚ) - (j : ℚ)) / (x.length : ℚ)) *
    kernel (x.drop j) (y.take (x.length - j))

/-- Modelled from the spec: the cumulative lag statistic at lag `L`,
`Σ_{j=0}^{L} (n-j)/n · kernel(x[j:n], y[0:(n-j)])` (§4.2, matching the
documented formula in the `MGCX` docstring, mgcx.py lines 44-47). -/
def cum_stat {α : Type} (kernel : List α → List α → ℚ) (x y : List α)
    (L : Nat) : ℚ :=
  ((List.range (L + 1)).map (aligned_stat kernel x y)).sum

/-- Modelled from the spec: `compute_stat` of `hyppo/time_series/_utils.py`
(not under `src/`): `best_lag` is the argmax of the cumulative statistic over
lags `0..max_lag`, ties broken by the smallest lag; returns
`(best_stat, best_lag)` (§4.2). -/
def compute_stat {α : Type} (kernel : List α → List α → ℚ) (x y : List α)
    (max_lag : Nat) : ℚ × Nat :=
  (List.range (max_lag + 1)).foldl
    (fun best L =>
      if best.1 < cum_stat kernel x y L then (cum_stat kernel x y L, L) else best)
    (cum_stat kernel x y 0, 0)

/-- The singleton range, used to evaluate the degenerate searches. -/
theorem range_one_eq : List.range 1 = [0] := by
  rw [List.range_succ, List.range_zero]
  rfl

/-- Peeling the last lag off the search. -/
theorem compute_stat_succ {α : Type} (kernel : List α → List α → ℚ)
    (x y : List α) (m : Nat) :
    compute_stat kernel x y (m + 1) =
      (if (compute_stat kernel x y m).1 < cum_stat kernel x y (m + 1) then
        (cum_stat kernel x y (m + 1), m + 1)
      else compute_stat kernel x y m) := by
  unfold compute_stat
  rw [List.range_succ, List.foldl_append]
  rfl

/-- The fold implementing the lag search really computes the argmax of the
cumulative statistic over `0..m`, with ties going to the smallest lag. -/
theorem compute_stat_argmax {α : Type} (kernel : List α → List α → ℚ)
    (x y : List α) :
    ∀ m : Nat,
      (compute_stat kernel x y m).2 ≤ m ∧
      (compute_stat kernel x y m).1 =
        cum_stat kernel x y (compute_stat kernel x y m).2 ∧
      (∀ L, L ≤ m → cum_stat kernel x y L ≤ (compute_stat kernel x y m).1) ∧
      (∀ L, L ≤ m → cum_stat kernel x y L = (compute_stat kernel x y m).1 →
        (compute_stat kernel x y m).2 ≤ L) := by
  intro m
  induction m with
  | zero =>
    have h0 : compute_stat kernel x y 0 = (cum_stat kernel x y 0, 0) := by
      unfold compute_stat
      rw [range_one_eq]
      simp [lt_irrefl]
    rw [h0]
    refine ⟨le_refl 0, rfl, ?_, ?_⟩
    · intro L hL
      have : L = 0 := Nat.le_zero.mp hL
      rw [this]
    · intro L _ _
      exact Nat.zero_le L
  | succ m ih =>
    rw [compute_stat_succ]
    by_cases hlt : (compute_stat kernel x y m).1 < cum_stat kernel x y (m + 1)
    · rw [if_pos hlt]
      refine ⟨le_refl _, rfl, ?_, ?_⟩
      · intro L hL
        by_cases hLm : L ≤ m
        · exact le_of_lt (lt_of_le_of_lt (ih.2.2.1 L hLm) hlt)
        · have : L = m + 1 := by omega
          rw [this]
      · intro L hL heq
        by_cases hLm : L ≤ m
        · exfalso
          have h1 : cum_stat kernel x y L ≤ (compute_stat kernel x y m).1 :=
            ih.2.2.1 L hLm
          rw [heq] at h1
          exact absurd (lt_of_lt_of_le hlt h1) (lt_irrefl _)
        · omega
    · rw [if_neg hlt]
      refine ⟨Nat.le_succ_of_le ih.1, ih.2.1, ?_, ?_⟩
      · intro L hL
        by_cases hLm : L ≤ m
        · exact ih.2.2.1 L hLm
        · have : L = m + 1 := by omega
          rw [this]
          exact not_lt.mp hlt
      · intro L hL heq
        by_cases hLm : L ≤ m
        · exact ih.2.2.2 L hLm heq
        · have h1 : L = m + 1 := by omega
          have h2 := ih.1
          omega

/-- With no lag to search, the cumulative statistic is the plain kernel
value: the single summand has weight `n/n = 1` and full-length slices. -/
theorem cum_stat_zero {α : Type} (kernel : List α → List α → ℚ)
    (x z : List α) (hlen : z.length = x.length) (hx : 0 < x.length) :
    cum_stat kernel x z 0 = kernel x z := by
  have hne : ((x.length : ℚ)) ≠ 0 := by
    exact_mod_cast Nat.pos_iff_ne_zero.mp hx
  unfold cum_stat aligned_stat
  rw [range_one_eq]
  simp only [List.map_cons, List.map_nil, List.sum_cons, List.sum_nil, add_zero,
    Nat.cast_zero, sub_zero, List.drop_zero, Nat.sub_zero]
  rw [div_self hne, one_mul, ← hlen, List.take_length]

/-- With `max_lag = 0`, the lag search returns the plain statistic at lag 0. -/
theorem compute_stat_zero {α : Type} (kernel : List α → List α → ℚ)
    (x z : List α) (hlen : z.length = x.length) (hx : 0 < x.length) :
    compute_stat kernel x z 0 = (kernel x z, 0) := by
  unfold compute_stat
  rw [range_one_eq]
  simp only [List.foldl_cons, List.foldl_nil, lt_irrefl, if_false, if_neg (lt_irrefl _)]
  rw [cum_stat_zero kernel x z hlen hx]

end LagSearch

section TimeSeries

/-- `MGCX._statistic` (src/hyppo/time_series/mgcx.py, lines 60-91):
`stat, opt_lag = compute_stat(x, y, MGC, self.compute_distance, self.max_lag)`
followed by `opt_scale = compute_scale_at_lag(x, y, opt_lag, ...)`.  The `MGC`
kernel and `compute_scale_at_lag` live outside `src/` and are abstracted as
the parameters `kernel` and `scale_at`. -/
def mgcx_statistic {α : Type} (kernel : List α → List α → ℚ)
    (scale_at : List α → List α → Nat → Nat × Nat) (max_lag : Nat)
    (x y : List α) : ℚ × Nat × (Nat × Nat) :=
  let r := compute_stat kernel x y max_lag
  (r.1, r.2, scale_at x y r.2)

/-- Modelled from the spec: the null distribution built by
`TimeSeriesTest.test` (`hyppo/time_series/base.py`, not under `src/`).  Per
§4.1/§4.5 the statistic function handed to the permutation engine is
`MGCX._statistic` itself — lag search included — so each draw evaluates its
scalar part on `(x, permuted_y)`. -/
def ts_null_dist {α : Type} (kernel : List α → List α → ℚ)
    (scale_at : List α → List α → Nat → Nat × Nat) (max_lag : Nat)
    (draw : Draw α) (x y : List α) (reps : Nat) (s : RngState) : List ℚ :=
  null_dist (fun a b => (mgcx_statistic kernel scale_at max_lag a b).1)
    draw x y reps s

/-- Modelled from the spec: `TimeSeriesTest.test` (`hyppo/time_series/base.py`,
not under `src/`): computes the observed statistic triple once, drives the
permutation engine with the same statistic function, computes the p-value,
and returns `(stat, pvalue, stat_list)` — `mgcx.py` line 177 unpacks exactly
this triple. -/
def time_series_base_test {α : Type} (kernel : List α → List α → ℚ)
    (scale_at : List α → List α → Nat → Nat × Nat) (max_lag : Nat)
    (draw : Draw α) (x y : List α) (reps : Nat) (s : RngState) :
    ℚ × ℚ × (ℚ × Nat × (Nat × Nat)) :=
  let stat_list := mgcx_statistic kernel scale_at max_lag x y
  let nd := ts_null_dist kernel scale_at max_lag draw x y reps s
  (stat_list.1, compute_pvalue nd stat_list.1 reps, stat_list)

/-- `MGCX.test` (src/hyppo/time_series/mgcx.py, lines 172-180): runs the base
test and returns the triple `(stat, pvalue, mgcx_dict)` with
`mgcx_dict = {opt_lag: stat_list[1], opt_scale: stat_list[2]}`. -/
def mgcx_test {α : Type} (kernel : List α → List α → ℚ)
    (scale_at : List α → List α → Nat → Nat × Nat) (max_lag : Nat)
    (draw : Draw α) (x y : List α) (reps : Nat) (s : RngState) : TestReturn :=
  let r := time_series_base_test kernel scale_at max_lag draw x y reps s
  .triple r.1 r.2.1 r.2.2.2.1 r.2.2.2.2

/-- Modelled from the spec: the corresponding non-lagged test (`Dcorr.test`
and friends, not under `src/`): observed statistic `kernel(x, y)`, the same
permutation engine and the same p-value calculator, no lag search (§4.5, §8
"Lag-search correctness"). -/
def plain_test {α : Type} (kernel : List α → List α → ℚ) (draw : Draw α)
    (x y : List α) (reps : Nat) (s : RngState) : ℚ × ℚ :=
  let stat := kernel x y
  let nd := null_dist kernel draw x y reps s
  (stat, compute_pvalue nd stat reps)

/-- A concrete scale recovery for witnesses. -/
def constScale : List ℚ → List ℚ → Nat → Nat × Nat := fun _ _ _ => (1, 1)

end TimeSeries

/-- C4: the lag-search statistic at candidate lag `L` is the cumulative
weighted sum over `j` in `0..L` of `((n-j)/n) · kernel(x[j:n], y[0:(n-j)])`
(not the single-lag kernel value), and `best_lag` is the argmax of this
cumulative statistic over `0..max_lag`, ties broken by the smallest lag. -/
theorem lag_search_cumulative_argmax {α : Type} (kernel : List α → List α → ℚ)
    (x y : List α) (max_lag : Nat) :
    (∀ L, cum_stat kernel x y L =
      ∑ j ∈ Finset.range (L + 1),
        (((x.length : ℚ) - (j : ℚ)) / (x.length : ℚ)) *
          kernel (x.drop j) (y.take (x.length - j))) ∧
    (compute_stat kernel x y max_lag).2 ≤ max_lag ∧
    (compute_stat kernel x y max_lag).1 =
      cum_stat kernel x y (compute_stat kernel x y max_lag).2 ∧
    (∀ L, L ≤ max_lag →
      cum_stat kernel x y L ≤ (compute_stat kernel x y max_lag).1) ∧
    (∀ L, L ≤ max_lag →
      cum_stat kernel x y L = (compute_stat kernel x y max_lag).1 →
      (compute_stat kernel x y max_lag).2 ≤ L) := by
  refine ⟨?_, (compute_stat_argmax kernel x y max_lag).1,
    (compute_stat_argmax kernel x y max_lag).2.1,
    (compute_stat_argmax kernel x y max_lag).2.2.1,
    (compute_stat_argmax kernel x y max_lag).2.2.2⟩
  intro L
  induction L with
  | zero =>
    unfold cum_stat
    rw [range_one_eq]
    simp [aligned_stat]
  | succ L ihL =>
    unfold cum_stat
    rw [List.range_succ, List.map_append, List.sum_append,
      Finset.sum_range_succ]
    unfold cum_stat at ihL
    rw [ihL]
    simp [aligned_stat]

/-- C4 witness: at a concrete kernel and inputs with `max_lag = 1`, the
best statistic dominates the cumulative statistic at lag `0`. -/
theorem lag_search_cumulative_argmax_witness :
    (0 : Nat) ≤ 1 ∧
      cum_stat headStat [(1 : ℚ), 2] [(3 : ℚ), 4] 0 ≤
        (compute_stat headStat [(1 : ℚ), 2] [(3 : ℚ), 4] 1).1 :=
  ⟨by decide,
    (lag_search_cumulative_argmax headStat [(1 : ℚ), 2] [(3 : ℚ), 4] 1).2.2.2.1
      0 (by decide)⟩

/-- C1: the statistic function handed to the permutation engine by the
time-series test contains the full lag search: the `i`-th null-distribution
entry equals the re-optimized `compute_stat` value of the permuted pair
`(x, permuted_y)`, and it dominates the cumulative statistic of that permuted
pair at every lag in `0..max_lag` — the lag search is rerun per draw, not
evaluated at a lag fixed from the observed data. -/
theorem ts_null_entries_rerun_lag_search {α : Type} (kernel : List α → List α → ℚ)
    (scale_at : List α → List α → Nat → Nat × Nat) (max_lag : Nat) (draw : Draw α)
    (x y : List α) (reps : Nat) (s : RngState) (i : Nat) (hi : i < reps) :
    (ts_null_dist kernel scale_at max_lag draw x y reps s)[i]? =
      some ((compute_stat kernel x (permy_at draw y s i) max_lag).1) ∧
    (∀ L, L ≤ max_lag →
      cum_stat kernel x (permy_at draw y s i) L ≤
        (compute_stat kernel x (permy_at draw y s i) max_lag).1) := by
  constructor
  · unfold ts_null_dist
    rw [null_dist_eq_map, List.getElem?_map, List.getElem?_range hi]
    rfl
  · exact fun L hL =>
      (compute_stat_argmax kernel x (permy_at draw y s i) max_lag).2.2.1 L hL

/-- C1 witness: a concrete time-series permutation run at index `1` of `2`
with `max_lag = 1`. -/
theorem ts_null_entries_rerun_lag_search_witness :
    1 < 2 ∧
      ((ts_null_dist headStat constScale 1 rotateDraw [(1 : ℚ), 2] [(3 : ℚ), 4] 2 0)[1]? =
          some ((compute_stat headStat [(1 : ℚ), 2]
            (permy_at rotateDraw [(3 : ℚ), 4] 0 1) 1).1) ∧
        (∀ L, L ≤ 1 →
          cum_stat headStat [(1 : ℚ), 2] (permy_at rotateDraw [(3 : ℚ), 4] 0 1) L ≤
            (compute_stat headStat [(1 : ℚ), 2]
              (permy_at rotateDraw [(3 : ℚ), 4] 0 1) 1).1)) :=
  ⟨by decide,
    ts_null_entries_rerun_lag_search headStat constScale 1 rotateDraw
      [(1 : ℚ), 2] [(3 : ℚ), 4] 2 0 1 (by decide)⟩

/-- C5: with `max_lag = 0` the time-series test degenerates to the plain
non-lagged test on the same data: same observed statistic, same p-value under
the same permutation source, and `best_lag = 0`. -/
theorem max_lag_zero_matches_plain_test {α : Type} (kernel : List α → List α → ℚ)
    (scale_at : List α → List α → Nat → Nat × Nat) (draw : Draw α)
    (x y : List α) (reps : Nat) (s : RngState)
    (hdraw : LawfulDraw draw) (hlen : y.length = x.length) (hx : 0 < x.length) :
    (time_series_base_test kernel scale_at 0 draw x y reps s).1 =
      (plain_test kernel draw x y reps s).1 ∧
    (time_series_base_test kernel scale_at 0 draw x y reps s).2.1 =
      (plain_test kernel draw x y reps s).2 ∧
    (compute_stat kernel x y 0).2 = 0 := by
  have hstat : (mgcx_statistic kernel scale_at 0 x y).1 = kernel x y := by
    show (compute_stat kernel x y 0).1 = kernel x y
    rw [compute_stat_zero kernel x y hlen hx]
  have hnd : ts_null_dist kernel scale_at 0 draw x y reps s =
      null_dist kernel draw x y reps s := by
    unfold ts_null_dist
    rw [null_dist_eq_map, null_dist_eq_map]
    apply List.map_congr_left
    intro j _
    have hp : (permy_at draw y s j).Perm y := hdraw _ _
    have hl : (permy_at draw y s j).length = x.length := by
      rw [hp.length_eq, hlen]
    show (compute_stat kernel x (permy_at draw y s j) 0).1 =
      kernel x (permy_at draw y s j)
    rw [compute_stat_zero kernel x _ hl hx]
  refine ⟨hstat, ?_, ?_⟩
  · show compute_pvalue (ts_null_dist kernel scale_at 0 draw x y reps s)
      (mgcx_statistic kernel scale_at 0 x y).1 reps =
      compute_pvalue (null_dist kernel draw x y reps s) (kernel x y) reps
    rw [hstat, hnd]
  · rw [compute_stat_zero kernel x y hlen hx]

/-- C5 witness: a concrete equal-length pair with the rotation draw. -/
theorem max_lag_zero_matches_plain_test_witness :
    LawfulDraw rotateDraw ∧ ([(3 : ℚ), 4]).length = ([(1 : ℚ), 2]).length ∧
      0 < ([(1 : ℚ), 2]).length ∧
      ((time_series_base_test headStat constScale 0 rotateDraw
          [(1 : ℚ), 2] [(3 : ℚ), 4] 2 0).1 =
        (plain_test headStat rotateDraw [(1 : ℚ), 2] [(3 : ℚ), 4] 2 0).1 ∧
      (time_series_base_test headStat constScale 0 rotateDraw
          [(1 : ℚ), 2] [(3 : ℚ), 4] 2 0).2.1 =
        (plain_test headStat rotateDraw [(1 : ℚ), 2] [(3 : ℚ), 4] 2 0).2 ∧
      (compute_stat headStat [(1 : ℚ), 2] [(3 : ℚ), 4] 0).2 = 0) :=
  ⟨rotateDraw_lawful, by decide, by decide,
    max_lag_zero_matches_plain_test headStat constScale rotateDraw
      [(1 : ℚ), 2] [(3 : ℚ), 4] 2 0 rotateDraw_lawful (by decide) (by decide)⟩

/-- C9 counterexample: `DiscrimOneSample.test` does not return a triple with
an info mapping — at a concrete input it returns the bare pair
`(stat, pvalue)`. -/
theorem discrim_test_returns_bare_pair :
    (discrim_test headStat rotateDraw ([] : List ℚ) [(1 : ℚ), 2] 2 0).hasInfo =
      false := rfl

/-- C9 (amended): `MGCX.test` returns the triple `(stat, pvalue, info)` whose
info carries exactly `opt_lag` and `opt_scale`, both recovered from the
observed (non-permuted) data's best lag, while `DiscrimOneSample.test`
returns only the pair `(stat, pvalue)` with no info mapping. -/
theorem test_call_surfaces {α γ δ : Type} (kernel : List α → List α → ℚ)
    (scale_at : List α → List α → Nat → Nat × Nat) (max_lag : Nat)
    (draw : Draw α) (x y : List α) (reps : Nat) (s : RngState)
    (statistic : γ → List δ → ℚ) (draw2 : Draw δ) (x2 : γ) (y2 : List δ)
    (reps2 : Nat) (s2 : RngState) :
    mgcx_test kernel scale_at max_lag draw x y reps s =
      .triple (compute_stat kernel x y max_lag).1
        (compute_pvalue (ts_null_dist kernel scale_at max_lag draw x y reps s)
          (compute_stat kernel x y max_lag).1 reps)
        (compute_stat kernel x y max_lag).2
        (scale_at x y (compute_stat kernel x y max_lag).2) ∧
    discrim_test statistic draw2 x2 y2 reps2 s2 =
      .pair (statistic x2 y2)
        (compute_pvalue (null_dist statistic draw2 x2 y2 reps2 s2)
          (statistic x2 y2) reps2) :=
  ⟨rfl, rfl⟩

end Hyppo
